import Mathlib

/-!
Verification development for the pokemon-tcg-sync data pipeline.

The definitions below are a shallow embedding of the three scripts the
claims concern:

* `src/scripts/fetch-pricing.js` — row normalization, composite-key
  construction and the pricing mapping (`toKey`, `parseFloatSafe`,
  `extractNumberFromName`, the per-row loop);
* `src/scripts/merge-data.js` — set resolution and the multi-strategy
  pricing-key matcher (`toSetCodeFromIdOrUrl`, `normalizePrintingLike`,
  `buildPricingKey`, `normalizeCardNumber`, `normalizeSetId`, `main`);
* `src/scripts/debug-pricing.js` — the health-check exit codes.

Modelling conventions, used consistently below:

* JavaScript values that can be a string, a finite number, `null` or
  absent are modelled by `Option JsVal` (`none` = absent/`undefined`).
  IEEE doubles are modelled by exact rationals `ℚ`; none of the claims
  depends on binary floating-point rounding, and `Number.isFinite`
  failures (`NaN`, `Infinity`) are modelled by `Option`.
* JavaScript objects used as dictionaries (`pricing[key] = …`,
  `Map.set`) are modelled by association lists with in-place overwrite
  (`objInsert`), which preserves both key-uniqueness and insertion
  order, exactly as JS object/Map semantics do.
* String coercion of numbers (`String(q)`) is given a simple canonical
  form; no claim exercises number-to-string coercion.
-/

namespace PokemonTcgSync

/-! ## JavaScript value primitives -/

/-- A JSON/JavaScript field value: a string, a finite number, or `null`.
An absent (`undefined`) field is `none` at use sites. -/
inductive JsVal where
  | vStr (s : String)
  | vNum (q : ℚ)
  | vNull
deriving DecidableEq, Repr

/-- JavaScript truthiness of a possibly-absent value: `undefined`, `null`,
the empty string and `0` are falsy. -/
def truthy : Option JsVal → Bool
  | none => false
  | some .vNull => false
  | some (.vStr s) => s ≠ ""
  | some (.vNum q) => q ≠ 0

/-- The JavaScript `||` operator on possibly-absent values. -/
def jsOr (a b : Option JsVal) : Option JsVal :=
  if truthy a then a else b

/-- The JavaScript `??` (nullish coalescing) operator. -/
def jsQQ (a b : Option JsVal) : Option JsVal :=
  match a with
  | none => b
  | some .vNull => b
  | some v => some v

/-- Ends a `??` chain with a non-nullish default value. -/
def jsQQv (a : Option JsVal) (dflt : JsVal) : JsVal :=
  match a with
  | none => dflt
  | some .vNull => dflt
  | some v => v

/-- Canonical string form of a rational, standing in for JavaScript
number-to-string coercion (not exercised by any claim). -/
def ratStr (q : ℚ) : String :=
  if q.den = 1 then toString q.num else toString q.num ++ "/" ++ toString q.den

/-- `String(v)` on a JavaScript value. -/
def jsValToString : JsVal → String
  | .vStr s => s
  | .vNum q => ratStr q
  | .vNull => "null"

/-- Digit list to natural number, most significant digit first. -/
def digitsToNat (l : List Char) : ℕ :=
  l.foldl (fun a c => 10 * a + (c.toNat - '0'.toNat)) 0

/-- Is `p` a prefix of `l` (plain Boolean version)? -/
def listPre : List Char → List Char → Bool
  | [], _ => true
  | _ :: _, [] => false
  | a :: as, b :: bs => a = b && listPre as bs

/-- Does `l` contain `p` as a contiguous sublist? -/
def listInf (p : List Char) : List Char → Bool
  | [] => p.isEmpty
  | l@(_ :: t) => listPre p l || listInf p t

/-- Does string `s` contain `pat` as a substring? -/
def strContains (s pat : String) : Bool :=
  listInf pat.data s.data

/-- `s.toLowerCase()` (character-wise; ASCII case mapping). -/
def strLower (s : String) : String :=
  String.mk (s.data.map Char.toLower)

/-- `s.toUpperCase()` (character-wise; ASCII case mapping). -/
def strUpper (s : String) : String :=
  String.mk (s.data.map Char.toUpper)

/-- `s.trim()`: strip whitespace from both ends. -/
def strTrim (s : String) : String :=
  String.mk (((s.data.dropWhile Char.isWhitespace).reverse.dropWhile Char.isWhitespace).reverse)

/-- `Number.parseFloat` on a string, returning `none` where JavaScript
would produce a non-finite result (`NaN`, or an `Infinity` literal —
both are rejected by the `Number.isFinite` guard in `parseFloatSafe`).
Handles optional leading whitespace, a sign, decimal digits with an
optional fractional part, and an optional exponent. -/
def jsParseFloat (s : String) : Option ℚ :=
  let l := s.data.dropWhile Char.isWhitespace
  let signAndRest : ℚ × List Char :=
    match l with
    | '-' :: t => (-1, t)
    | '+' :: t => (1, t)
    | _ => (1, l)
  let sign := signAndRest.1
  let l1 := signAndRest.2
  if listPre "Infinity".data l1 then none
  else
    let ip := l1.takeWhile Char.isDigit
    let l2 := l1.drop ip.length
    let fpAndRest : List Char × List Char :=
      match l2 with
      | '.' :: t => (t.takeWhile Char.isDigit, (t.dropWhile Char.isDigit))
      | _ => ([], l2)
    let fp := fpAndRest.1
    let l3 := fpAndRest.2
    if ip.isEmpty && fp.isEmpty then none
    else
      let mant : ℚ := (digitsToNat ip : ℚ) + (digitsToNat fp : ℚ) / ((10 : ℚ) ^ fp.length)
      let expn : ℤ :=
        match l3 with
        | 'e' :: t | 'E' :: t =>
          let esAndRest : ℤ × List Char :=
            match t with
            | '-' :: u => (-1, u)
            | '+' :: u => (1, u)
            | _ => (1, t)
          let ed := esAndRest.2.takeWhile Char.isDigit
          if ed.isEmpty then 0 else esAndRest.1 * (digitsToNat ed : ℤ)
        | _ => 0
      some (sign * mant * (10 : ℚ) ^ expn)

/-! ## fetch-pricing.js — helpers -/

/-- `parseFloatSafe(x, def)` from `fetch-pricing.js`: parse as a float,
returning `def` when the result is not a finite number.  `none` models
an `undefined` argument, whose parse is `NaN`. -/
def parseFloatSafe (x : Option JsVal) (dflt : ℚ) : ℚ :=
  match x with
  | none => dflt
  | some .vNull => dflt
  | some (.vNum q) => q
  | some (.vStr s) => (jsParseFloat s).getD dflt

/-- `cleanStr(s)` from `fetch-pricing.js`: `String(s ?? '').trim()`. -/
def cleanStr (x : Option JsVal) : String :=
  match x with
  | none => ""
  | some .vNull => ""
  | some v => strTrim (jsValToString v)

/-- `toKey(groupId, extNumber, printing, lang = 'EN')` from
`fetch-pricing.js`.  Note: `extNumber` is only trimmed, never
upper-cased, and `lang` is interpolated as passed. -/
def toKey (groupId extNumber printing lang : String) : String :=
  strLower groupId ++ "|" ++ strTrim extNumber ++ "|"
    ++ strLower (if printing = "" then "normal" else printing) ++ "|" ++ lang

/-- One attempt of the `extractNumberFromName` regular expression at the
current position: a run of 1–3 digits, optionally followed by
`\s* / \s*` and another 1–3 digit run, and then a whitespace character
or the end of input. -/
def extractTryAt (l : List Char) : Option (List Char) :=
  let ds := l.takeWhile Char.isDigit
  let rest := l.drop ds.length
  let slashPart : Bool :=
    match rest.dropWhile Char.isWhitespace with
    | '/' :: r2 =>
      let r3 := r2.dropWhile Char.isWhitespace
      let ds2 := r3.takeWhile Char.isDigit
      let r4 := r3.drop ds2.length
      !ds2.isEmpty && ds2.length ≤ 3 && (r4.isEmpty || (r4.headD ' ').isWhitespace)
    | _ => false
  let boundaryAfter : Bool :=
    rest.isEmpty || (rest.headD ' ').isWhitespace || slashPart
  if !ds.isEmpty && ds.length ≤ 3 && boundaryAfter then some ds else none

/-- Leftmost-match scan for `extractNumberFromName`; `allowed` records
whether the current position follows the start of input or a whitespace
character (the `(^|\s)` alternative). -/
def extractScan : Bool → List Char → Option (List Char)
  | _, [] => none
  | allowed, l@(c :: t) =>
    if allowed then
      match extractTryAt l with
      | some ds => some ds
      | none => extractScan c.isWhitespace t
    else extractScan c.isWhitespace t

/-- `extractNumberFromName(name)` from `fetch-pricing.js`: pull a
standalone 1–3 digit token (optionally written `n/total`) out of a
product name; `none` when the regular expression does not match. -/
def extractNumberFromName (name : String) : Option String :=
  (extractScan true name.data).map fun ds => String.mk ds

/-! ## fetch-pricing.js — the per-row pipeline (`main`, lines 100–143) -/

/-- One upstream pricing row, with every recognized source field name.
`none` models an absent field. -/
structure Row where
  groupId : Option JsVal := none
  setId : Option JsVal := none
  group_id : Option JsVal := none
  set_code : Option JsVal := none
  groupName : Option JsVal := none
  setName : Option JsVal := none
  group_name : Option JsVal := none
  set_name : Option JsVal := none
  productId : Option JsVal := none
  product_id : Option JsVal := none
  printing : Option JsVal := none
  subTypeName : Option JsVal := none
  finish : Option JsVal := none
  lang : Option JsVal := none
  language : Option JsVal := none
  extNumber : Option JsVal := none
  number : Option JsVal := none
  cardNumber : Option JsVal := none
  name : Option JsVal := none
  productName : Option JsVal := none
  low : Option JsVal := none
  lowPrice : Option JsVal := none
  lowest_price : Option JsVal := none
  mid : Option JsVal := none
  market : Option JsVal := none
  median : Option JsVal := none
  high : Option JsVal := none
  highPrice : Option JsVal := none
  highest_price : Option JsVal := none
  avg : Option JsVal := none
  mean : Option JsVal := none
  directLow : Option JsVal := none
  direct_low : Option JsVal := none
  tcgcsvGroupId : Option JsVal := none
deriving DecidableEq, Repr

/-- A row with every field absent. -/
def emptyRow : Row := {}

/-- `groupId = cleanStr(row.groupId || row.setId || row.group_id || row.set_code)`. -/
def rowGroupId (r : Row) : String :=
  cleanStr (jsOr r.groupId (jsOr r.setId (jsOr r.group_id r.set_code)))

/-- `groupName = cleanStr(row.groupName || row.setName || row.group_name || row.set_name)`. -/
def rowGroupName (r : Row) : String :=
  cleanStr (jsOr r.groupName (jsOr r.setName (jsOr r.group_name r.set_name)))

/-- `printing = cleanStr(row.printing || row.subTypeName || row.finish || 'normal').toLowerCase()`.
The raw subtype text is lower-cased but NOT classified into
normal/holo/reverse. -/
def rowPrintingRaw (r : Row) : String :=
  strLower (cleanStr (jsOr r.printing (jsOr r.subTypeName
    (jsOr r.finish (some (JsVal.vStr "normal"))))))

/-- `lang = cleanStr(row.lang || row.language || 'EN').toUpperCase()`. -/
def rowLang (r : Row) : String :=
  strUpper (cleanStr (jsOr r.lang (jsOr r.language (some (JsVal.vStr "EN")))))

/-- `extNumber = cleanStr(row.extNumber || row.number || row.cardNumber)`. -/
def rowExtNumber (r : Row) : String :=
  cleanStr (jsOr r.extNumber (jsOr r.number r.cardNumber))

/-- `name = cleanStr(row.name || row.productName)`. -/
def rowName (r : Row) : String :=
  cleanStr (jsOr r.name r.productName)

/-- `low = parseFloatSafe(row.low ?? row.lowPrice ?? row.lowest_price, 0)`. -/
def rowLow (r : Row) : ℚ :=
  parseFloatSafe (jsQQ r.low (jsQQ r.lowPrice r.lowest_price)) 0

/-- `mid = parseFloatSafe(row.mid ?? row.market ?? row.median, 0)`. -/
def rowMid (r : Row) : ℚ :=
  parseFloatSafe (jsQQ r.mid (jsQQ r.market r.median)) 0

/-- `high = parseFloatSafe(row.high ?? row.highPrice ?? row.highest_price, 0)`. -/
def rowHigh (r : Row) : ℚ :=
  parseFloatSafe (jsQQ r.high (jsQQ r.highPrice r.highest_price)) 0

/-- `market = parseFloatSafe(row.market ?? row.avg ?? row.mean ?? mid, mid)`:
both the end of the nullish chain and the parse-failure default are the
already-parsed `mid`, not `0`. -/
def rowMarket (r : Row) : ℚ :=
  parseFloatSafe (some (jsQQv (jsQQ r.market (jsQQ r.avg r.mean)) (JsVal.vNum (rowMid r))))
    (rowMid r)

/-- `directLow = parseFloatSafe(row.directLow ?? row.direct_low ?? 0, 0)`. -/
def rowDirectLow (r : Row) : ℚ :=
  parseFloatSafe (some (jsQQv (jsQQ r.directLow r.direct_low) (JsVal.vNum 0))) 0

/-- `extractedNumber = extNumber || extractNumberFromName(name)`. -/
def rowExtractedNumber (r : Row) : Option String :=
  if rowExtNumber r ≠ "" then some (rowExtNumber r)
  else extractNumberFromName (rowName r)

/-- The collector number interpolated into the key:
`extractedNumber || extNumber`. -/
def rowKeyNumber (r : Row) : String :=
  (rowExtractedNumber r).getD (rowExtNumber r)

/-- The composite key of a row:
`toKey(groupId, extractedNumber || extNumber, printing || 'normal', lang || 'EN')`. -/
def rowKey (r : Row) : String :=
  toKey (rowGroupId r) (rowKeyNumber r)
    (if rowPrintingRaw r = "" then "normal" else rowPrintingRaw r)
    (if rowLang r = "" then "EN" else rowLang r)

/-- The record stored in the pricing mapping for one row (the `_raw`
debugging field of the source is omitted: no claim mentions it). -/
structure PricingRecord where
  key : String
  productId : Option JsVal
  name : String
  cleanName : String
  groupId : String
  extNumber : String
  extractedNumber : Option String
  printing : String
  lang : String
  low : ℚ
  mid : ℚ
  high : ℚ
  market : ℚ
  directLow : ℚ
  tcgcsvGroupId : Option JsVal
  groupName : String
deriving DecidableEq, Repr

/-- The record assigned to `pricing[key]` for one row. -/
def mkRecord (r : Row) : PricingRecord :=
  { key := rowKey r
    productId := jsOr r.productId r.product_id
    name := rowName r
    cleanName := rowName r
    groupId := rowGroupId r
    extNumber := rowExtNumber r
    extractedNumber := rowExtractedNumber r
    printing := if rowPrintingRaw r = "" then "normal" else rowPrintingRaw r
    lang := if rowLang r = "" then "EN" else rowLang r
    low := rowLow r
    mid := rowMid r
    high := rowHigh r
    market := rowMarket r
    directLow := rowDirectLow r
    tcgcsvGroupId := jsOr r.tcgcsvGroupId (jsOr r.groupId (some JsVal.vNull))
    groupName := rowGroupName r }

/-- Insert-or-overwrite on an association list: the semantics of
`obj[key] = value` on a JavaScript object (and of `Map.set`). -/
def objInsert {α : Type} : List (String × α) → String → α → List (String × α)
  | [], k, v => [(k, v)]
  | (k', v') :: t, k, v =>
    if k' = k then (k, v) :: t else (k', v') :: objInsert t k v

/-- Key lookup on an association list: `obj[key]`. -/
def pmLookup {α : Type} (m : List (String × α)) (k : String) : Option α :=
  (m.find? fun p => p.1 == k).map Prod.snd

/-- The pricing mapping built by the row loop of `fetch-pricing.js`:
`for (const row of rows) { … pricing[key] = {…} }`. -/
def buildPricing (rows : List Row) : List (String × PricingRecord) :=
  rows.foldl (fun m r => objInsert m (rowKey r) (mkRecord r)) []

/-- `pricingEntries = Object.keys(pricing).length` of the output. -/
def pricingEntries (rows : List Row) : ℕ :=
  (buildPricing rows).length

/-! ## merge-data.js — data model -/

/-- A card's embedded `set` object (or a registry entry).  The four
named fields model presence (`some`, possibly the empty string) versus
absence (`none`); `extra` models any further keys, which matter only to
the `hasKeys` check.  All-`none` with empty `extra` doubles as an
absent/empty object. -/
structure SetObj where
  id : Option String := none
  name : Option String := none
  series : Option String := none
  releaseDate : Option String := none
  extra : List String := []
deriving DecidableEq, Repr

/-- The empty object `{}`. -/
def emptySet : SetObj := {}

/-- `hasKeys(obj)`: the object exists and has at least one key. -/
def hasKeys (s : SetObj) : Bool :=
  s.id.isSome || s.name.isSome || s.series.isSome || s.releaseDate.isSome || !s.extra.isEmpty

/-- Truthiness of a possibly-absent string field (only the empty string
is falsy). -/
def optTruthy (o : Option String) : Bool :=
  match o with
  | some s => s ≠ ""
  | none => false

/-- The JavaScript `||` on two possibly-absent string fields. -/
def jsOrOpt (a b : Option String) : Option String :=
  if optTruthy a then a else b

/-- One raw card as read from `data/raw-cards.json`.  For plain string
fields the empty string models an absent value (both are falsy at every
use site in the script). -/
structure Card where
  id : String := ""
  name : String := ""
  number : String := ""
  rarity : Option String := none
  supertype : Option String := none
  types : List String := []
  set : SetObj := {}
  imageSmall : Option String := none
  imageLarge : Option String := none
  printing : Option String := none
  variant : Option String := none
deriving DecidableEq, Repr

/-! ## merge-data.js — normalization helpers -/

/-- `toSetCodeFromIdOrUrl`, id half: the regular expression
`/^([a-z0-9]+)(?=-)/i` — a maximal leading alphanumeric run that must
be immediately followed by a hyphen. -/
def matchIdPrefix (s : String) : Option String :=
  let run := s.data.takeWhile Char.isAlphanum
  match run, s.data.drop run.length with
  | [], _ => none
  | _ :: _, '-' :: _ => some (strLower (String.mk run))
  | _ :: _, _ => none

/-- `toSetCodeFromIdOrUrl`, URL half: the lazy capture of
`/images\.pokemontcg\.io\/(.*?)\//i` — the path segment between the
host literal and the next `/`.  Searching on the lower-cased string
realizes the `i` flag; the captured group is lower-cased by the caller
anyway. -/
def urlSegAux : List Char → Option String
  | [] => none
  | l@(_ :: t) =>
    if listPre "images.pokemontcg.io/".data l then
      let rest := l.drop "images.pokemontcg.io/".length
      let seg := rest.takeWhile (fun c => c ≠ '/')
      if (rest.drop seg.length).isEmpty then urlSegAux t else some (String.mk seg)
    else urlSegAux t

/-- `toSetCodeFromIdOrUrl(id, imgUrl)` from `merge-data.js`:
`"base5-36"` ↦ `"base5"`, else a pokemontcg.io image-URL path segment,
else `null`. -/
def toSetCodeFromIdOrUrl (id : String) (imgUrl : Option String) : Option String :=
  match (if id ≠ "" then matchIdPrefix id else none) with
  | some c => some c
  | none =>
    match imgUrl with
    | some u => if u ≠ "" then urlSegAux (strLower u).data else none
    | none => none

/-- `normalizePrintingLike(s)` from `merge-data.js`: classify free text
into normal/holo/reverse, `reverse` taking precedence over `holo`. -/
def normalizePrintingLike (s : String) : String :=
  let v := strLower s
  if strContains v "reverse" then "reverse"
  else if strContains v "holo" || strContains v "foil" then "holo"
  else "normal"

/-- `buildPricingKey({groupId, extNumber, printing, lang})` from
`merge-data.js`.  Unlike `toKey` in `fetch-pricing.js`, this
upper-cases `extNumber` and `lang`. -/
def buildPricingKey (groupId extNumber printing lang : String) : String :=
  strLower groupId ++ "|" ++ strUpper extNumber ++ "|"
    ++ strLower (if printing = "" then "normal" else printing) ++ "|"
    ++ strUpper (if lang = "" then "EN" else lang)

/-- `str.padStart(3, '0')`. -/
def padStart3 (s : String) : String :=
  if s.length ≥ 3 then s else String.mk (List.replicate (3 - s.length) '0') ++ s

/-- `str.replace(/^0+/, '')`. -/
def dropLeadingZeros (s : String) : String :=
  String.mk (s.data.dropWhile fun c => c = '0')

/-- `str.replace(/(\d+)$/, '')`. -/
def dropTrailingDigits (s : String) : String :=
  String.mk (s.data.reverse.dropWhile Char.isDigit).reverse

/-- `str.replace(/[^0-9A-Z]/g, '')` — keeps digits AND upper-case
letters (not a digits-only extraction). -/
def keepDigitsUpper (s : String) : String :=
  String.mk (s.data.filter fun c => c.isDigit || c.isUpper)

/-- `str.replace(/[^a-z0-9]/g, '')`. -/
def keepLowerAlnum (s : String) : String :=
  String.mk (s.data.filter fun c => c.isLower || c.isDigit)

/-- Character-level engine of `replaceFirst`: replace the first
occurrence of `pat`, scanning left to right. -/
def listReplaceFirst (pat rep : List Char) : List Char → List Char
  | [] => if listPre pat [] then rep else []
  | s@(c :: t) => if listPre pat s then rep ++ s.drop pat.length else c :: listReplaceFirst pat rep t

/-- `str.replace(pat, rep)` with a string pattern: JavaScript replaces
only the FIRST occurrence (the string is unchanged when the pattern
does not occur). -/
def replaceFirst (s pat rep : String) : String :=
  String.mk (listReplaceFirst pat.data rep.data s.data)

/-- `normalizeCardNumber(num)` from `merge-data.js`: the number-variant
list actually tried by the matcher, in order. -/
def normalizeCardNumber (num : String) : List String :=
  if num = "" then [""]
  else
    let str := strUpper num
    [str, dropLeadingZeros str, padStart3 str, keepDigitsUpper str].filter fun v => v ≠ ""

/-- `normalizeSetId(setId)` from `merge-data.js`: the set-variant list
actually tried by the matcher, in order — six variants, including the
`base`↔`bs` abbreviation swaps and the appended `'1'`. -/
def normalizeSetId (setId : Option String) : List String :=
  match setId with
  | none => [""]
  | some s =>
    if s = "" then [""]
    else
      let str := strLower s
      [str, keepLowerAlnum str, replaceFirst str "base" "bs",
        replaceFirst str "bs" "base", dropTrailingDigits str, str ++ "1"].filter fun v => v ≠ ""

/-! ## merge-data.js — set resolution and pricing match (`main`) -/

/-- `setIndex`: `for (const s of allSets) if (s && s.id) setIndex.set(String(s.id).toLowerCase(), s)`. -/
def buildSetIndex (sets : List SetObj) : List (String × SetObj) :=
  sets.foldl (fun m s => if optTruthy s.id then objInsert m (strLower (s.id.getD "")) s else m) []

/-- Set resolution for one card (`main`, lines 114–120): embedded set
verbatim when it has keys; else registry lookup of the inferred code;
else the empty object. -/
def resolveFinalSet (setIdx : List (String × SetObj)) (card : Card) : SetObj :=
  if hasKeys card.set then card.set
  else
    match toSetCodeFromIdOrUrl card.id (jsOrOpt card.imageSmall card.imageLarge) with
    | some code =>
      match pmLookup setIdx code with
      | some s => s
      | none => emptySet
    | none => emptySet

/-- The set identifier fed to `normalizeSetId`:
`finalSet?.id || toSetCodeFromIdOrUrl(card.id)` (no image URL in this
second call). -/
def setIdForMatching (finalSet : SetObj) (card : Card) : Option String :=
  if optTruthy finalSet.id then finalSet.id else toSetCodeFromIdOrUrl card.id none

/-- `printingVariations`: the card's own declared/inferred printing
first, then the three fallbacks. -/
def printingVariations (card : Card) : List String :=
  [(if optTruthy card.printing then card.printing.getD ""
    else if optTruthy card.variant then card.variant.getD ""
    else normalizePrintingLike card.name),
   "normal", "holo", "reverse"]

/-- The triple-nested `outerLoop` of `main` (lines 136–155): first
present key wins, search stops immediately. -/
def findFirstMatch (pm : List (String × PricingRecord))
    (svs nvs pvs : List String) : Option (String × PricingRecord) :=
  svs.findSome? fun g =>
    nvs.findSome? fun n =>
      pvs.findSome? fun p =>
        let k := buildPricingKey g n p "EN"
        (pmLookup pm k).map fun r => (k, r)

/-- The full candidate-key list in the order the nested loops probe it. -/
def candidateKeys (svs nvs pvs : List String) : List String :=
  svs.flatMap fun g => nvs.flatMap fun n => pvs.map fun p => buildPricingKey g n p "EN"

/-- The candidate keys for one card, given the set index. -/
def candidateKeysOfCard (setIdx : List (String × SetObj)) (card : Card) : List String :=
  let fs := resolveFinalSet setIdx card
  candidateKeys (normalizeSetId (setIdForMatching fs card))
    (normalizeCardNumber card.number) (printingVariations card)

/-- The pricing object attached to an output card: the matched record
spread verbatim, with `groupName` defaulted from the resolved set and
the matched key recorded. -/
structure OutPricing where
  record : PricingRecord
  matchedKey : String
deriving DecidableEq, Repr

/-- One enriched card as written to an output chunk. -/
structure OutCard where
  id : String
  name : String
  number : String
  rarity : Option String
  supertype : Option String
  types : List String
  set : SetObj
  imageSmall : Option String
  imageLarge : Option String
  pricing : Option OutPricing
deriving DecidableEq, Repr

/-- Enrichment of one card (`main`, lines 107–202): resolve the set,
run the multi-strategy key match, and build the output object. -/
def enrichCard (setIdx : List (String × SetObj)) (pm : List (String × PricingRecord))
    (card : Card) : OutCard :=
  let finalSet := resolveFinalSet setIdx card
  let found := findFirstMatch pm (normalizeSetId (setIdForMatching finalSet card))
    (normalizeCardNumber card.number) (printingVariations card)
  { id := card.id
    name := card.name
    number := card.number
    rarity := card.rarity
    supertype := card.supertype
    types := card.types
    set := { id := finalSet.id, name := finalSet.name, series := finalSet.series,
             releaseDate := finalSet.releaseDate, extra := [] }
    imageSmall := card.imageSmall
    imageLarge := card.imageLarge
    pricing := found.map fun kr =>
      { record := { kr.2 with groupName :=
          if kr.2.groupName ≠ "" then kr.2.groupName else (finalSet.name).getD "" }
        matchedKey := kr.1 } }

/-! ## merge-data.js — full run (index, chunks, summary) -/

/-- `data/raw-cards.json` content as used by the merge. -/
structure CardData where
  cards : List Card := []
  sets : List SetObj := []
deriving DecidableEq, Repr

/-- `data/pricing-raw.json` content as used by the merge. -/
structure PricingData where
  pricing : List (String × PricingRecord) := []
  source : Option String := none
  lastUpdated : Option String := none
deriving DecidableEq, Repr

/-- `(x).toFixed(1)`, as an exact rational: round to the nearest tenth,
ties toward the larger value (the ECMAScript `toFixed` tie rule). -/
def toFixed1 (q : ℚ) : ℚ :=
  ((round (q * 10) : ℤ) : ℚ) / 10

/-- Number of probes the matcher performs for one card: the position of
the first present key, or the whole candidate list on a miss
(`pricingAttempts` increments once per probed key). -/
def probesOfCard (setIdx : List (String × SetObj)) (pm : List (String × PricingRecord))
    (card : Card) : ℕ :=
  let ks := candidateKeysOfCard setIdx card
  match ks.findIdx? (fun k => (pmLookup pm k).isSome) with
  | some i => i + 1
  | none => ks.length

/-- A chunk file `data/tcg-cards-chunk-N.json`. -/
structure ChunkFile where
  cards : List OutCard
  chunk : ℕ
  totalChunks : ℕ
  lastUpdated : String
deriving DecidableEq, Repr

/-- The search-index manifest `data/tcg-cards-index.json`.  The
percentage strings are modelled by their exact rational values, and
`sort`/`localeCompare` by code-point order (deterministic either way). -/
structure SearchIndex where
  sets : List SetObj
  types : List String
  rarities : List String
  totalCards : ℕ
  totalSets : ℕ
  cardsWithPricing : ℕ
  pricingCoverage : ℚ
  approach : String
  lastUpdated : String
  pricingSource : Option String
  pricingUpdated : Option String
  totalAttempts : ℕ
  successfulMatches : ℕ
  successRate : ℚ
deriving DecidableEq, Repr

/-- The summary file `data/summary.json`. -/
structure Summary where
  totalCards : ℕ
  totalSets : ℕ
  totalChunks : ℕ
  cardsWithPricing : ℕ
  pricingCoverage : ℚ
  totalAttempts : ℕ
  successfulMatches : ℕ
  successRate : ℚ
  lastUpdated : String
deriving DecidableEq, Repr

/-- Everything one merge run writes to disk. -/
structure MergeOutput where
  index : SearchIndex
  chunks : List ChunkFile
  summary : Summary
deriving DecidableEq, Repr

/-- Stable insertion sort with a Boolean `le`, modelling the stable
JavaScript `Array.prototype.sort`. -/
def insertSorted {α : Type} (le : α → α → Bool) (a : α) : List α → List α
  | [] => [a]
  | b :: t => if le a b then a :: b :: t else b :: insertSorted le a t

/-- Sort a list with a Boolean `le`. -/
def sortBy {α : Type} (le : α → α → Bool) (l : List α) : List α :=
  l.foldr (insertSorted le) []

/-- String order standing in for both the default `sort()` comparison
and `localeCompare` (any total order gives the same determinism
properties). -/
def strLe (a b : String) : Bool := !(decide (b < a))

/-- Helper for `dedupFirst`: keep elements not seen before. -/
def dedupFirstAux (seen : List String) : List String → List String
  | [] => []
  | a :: t => if seen.contains a then dedupFirstAux seen t else a :: dedupFirstAux (a :: seen) t

/-- Deduplication preserving first occurrences: `[...new Set(l)]`. -/
def dedupFirst (l : List String) : List String :=
  dedupFirstAux [] l

/-- The chunk list: `for (let i = 0; i < n; i += 500) chunks.push(slice(i, i+500))`. -/
def chunkSlices (l : List OutCard) : List (List OutCard) :=
  (List.range ((l.length + 499) / 500)).map fun i => (l.drop (500 * i)).take 500

/-- One full run of `merge-data.js` `main` on already-loaded inputs.
`t` is the wall-clock timestamp (`new Date().toISOString()`), the only
run-dependent input. -/
def mergeRun (cd : CardData) (pd : PricingData) (t : String) : MergeOutput :=
  let setIdx := buildSetIndex cd.sets
  let pm := pd.pricing
  let enriched := cd.cards.map (enrichCard setIdx pm)
  let cardsWithPricing := (enriched.filter fun c => c.pricing.isSome).length
  let totalAttempts := (cd.cards.map (probesOfCard setIdx pm)).sum
  let setMap := enriched.foldl
    (fun m c => if optTruthy c.set.id && optTruthy c.set.name
      then objInsert m (c.set.id.getD "") c.set else m) []
  let coverage := toFixed1 ((cardsWithPricing : ℚ) / ((max 1 enriched.length : ℕ) : ℚ) * 100)
  let successRate := toFixed1 ((cardsWithPricing : ℚ) / ((max 1 totalAttempts : ℕ) : ℚ) * 100)
  let chunks := chunkSlices enriched
  { index :=
    { sets := sortBy (fun a b => strLe (a.name.getD "") (b.name.getD "")) (setMap.map Prod.snd)
      types := sortBy strLe (dedupFirst (enriched.flatMap fun c => c.types))
      rarities := sortBy strLe (dedupFirst (enriched.filterMap fun c =>
        match c.rarity with
        | some r => if r ≠ "" then some r else none
        | none => none))
      totalCards := enriched.length
      totalSets := setMap.length
      cardsWithPricing := cardsWithPricing
      pricingCoverage := coverage
      approach := "enhanced multi-strategy pricing key matching"
      lastUpdated := t
      pricingSource := pd.source
      pricingUpdated := pd.lastUpdated
      totalAttempts := totalAttempts
      successfulMatches := cardsWithPricing
      successRate := successRate }
    chunks := (List.range chunks.length).map fun i =>
      { cards := chunks.getD i [], chunk := i + 1, totalChunks := chunks.length, lastUpdated := t }
    summary :=
    { totalCards := enriched.length
      totalSets := setMap.length
      totalChunks := chunks.length
      cardsWithPricing := cardsWithPricing
      pricingCoverage := coverage
      totalAttempts := totalAttempts
      successfulMatches := cardsWithPricing
      successRate := successRate
      lastUpdated := t } }

/-- Erase the run timestamp from every output artifact (the
`lastUpdated` fields are the only places the wall clock reaches). -/
def stripTimestamps (o : MergeOutput) : MergeOutput :=
  { index := { o.index with lastUpdated := "" }
    chunks := o.chunks.map fun c => { c with lastUpdated := "" }
    summary := { o.summary with lastUpdated := "" } }

/-! ## debug-pricing.js — health check -/

/-- Exit code of the health-check step (`scripts/debug-pricing.js`,
lines 14–26): `2` when `data/pricing-raw.json` is missing, `1` when the
entry count is below the threshold, `0` otherwise. -/
def healthCheckExit (fileExists : Bool) (entries threshold : ℕ) : ℕ :=
  if !fileExists then 2
  else if entries < threshold then 1
  else 0

/-! ## Concrete fixtures used by counterexamples and witnesses -/

/-- A pricing row whose subtype is the TCGCSV free-text value
`"Reverse Holofoil"`. -/
def rowRevHolo : Row :=
  { emptyRow with
    set_code := some (JsVal.vStr "base5")
    number := some (JsVal.vStr "36")
    subTypeName := some (JsVal.vStr "Reverse Holofoil") }

/-- A pricing row with a letter-bearing collector number. -/
def rowXy : Row :=
  { emptyRow with
    set_code := some (JsVal.vStr "XY1")
    extNumber := some (JsVal.vStr "25a") }

/-- A pricing row with only a `mid` price (the JSON number `5.5`). -/
def rowMid55 : Row :=
  { emptyRow with mid := some (JsVal.vNum (11 / 2)) }

/-! ## Helper lemmas -/

/-- `findSome?` over a `flatMap` runs the inner search on each block in
order. -/
theorem findSome?_flatMap {α β γ : Type} (l : List α) (f : α → List β) (g : β → Option γ) :
    ((l.flatMap f).findSome? g) = l.findSome? fun a => (f a).findSome? g := by
  induction l with
  | nil => rfl
  | cons a t ih =>
    simp only [List.flatMap_cons, List.findSome?_append, List.findSome?_cons, ih]
    cases (f a).findSome? g <;> rfl

/-- A successful `findSome?` exhibits a witnessing element. -/
theorem findSome?_mem_of_eq_some {α β : Type} {l : List α} {f : α → Option β} {b : β}
    (h : l.findSome? f = some b) : ∃ a ∈ l, f a = some b := by
  induction l with
  | nil => simp [List.findSome?] at h
  | cons a t ih =>
    rw [List.findSome?_cons] at h
    cases hfa : f a with
    | some c =>
      rw [hfa] at h
      simp only at h
      exact ⟨a, by simp, by rw [hfa, h]⟩
    | none =>
      rw [hfa] at h
      simp only at h
      obtain ⟨x, hx, hfx⟩ := ih h
      exact ⟨x, by simp [hx], hfx⟩

/-- Looking up the just-written key returns the new value; other keys
are unaffected. -/
theorem pmLookup_objInsert {α : Type} (m : List (String × α)) (k k' : String) (v : α) :
    pmLookup (objInsert m k v) k' = if k = k' then some v else pmLookup m k' := by
  induction m with
  | nil =>
    simp only [objInsert, pmLookup, List.find?]
    cases hb : (k == k') with
    | true => simp [eq_of_beq hb]
    | false => simp [beq_eq_false_iff_ne.mp hb]
  | cons q t ih =>
    by_cases hq : q.1 = k
    · rw [objInsert, if_pos hq]
      simp only [pmLookup, List.find?]
      cases hb : (k == k') with
      | true => simp [eq_of_beq hb]
      | false =>
        have hk : ¬k = k' := beq_eq_false_iff_ne.mp hb
        have hqb : (q.1 == k') = false := beq_eq_false_iff_ne.mpr (hq ▸ hk)
        simp [hk, hqb, pmLookup]
    · rw [objInsert, if_neg hq]
      simp only [pmLookup, List.find?]
      cases hb : (q.1 == k') with
      | true =>
        have hq' : q.1 = k' := eq_of_beq hb
        have hk : ¬k = k' := fun h => hq (h ▸ hq')
        simp [hk]
      | false =>
        simpa [pmLookup] using ih

/-- Inserting grows the association list by at most one entry. -/
theorem objInsert_length_le {α : Type} (m : List (String × α)) (k : String) (v : α) :
    (objInsert m k v).length ≤ m.length + 1 := by
  induction m with
  | nil => simp [objInsert]
  | cons p t ih =>
    by_cases h : p.1 = k
    · simp [objInsert, h]
    · simp only [objInsert, if_neg h, List.length_cons]
      omega

/-- Members of an insert are the new pair or old members. -/
theorem mem_objInsert {α : Type} {m : List (String × α)} {k : String} {v : α}
    {p : String × α} (h : p ∈ objInsert m k v) : p = (k, v) ∨ p ∈ m := by
  induction m with
  | nil => simpa [objInsert] using h
  | cons q t ih =>
    by_cases hq : q.1 = k
    · rw [objInsert, if_pos hq] at h
      rcases List.mem_cons.mp h with h1 | h2
      · exact Or.inl h1
      · exact Or.inr (List.mem_cons_of_mem _ h2)
    · rw [objInsert, if_neg hq] at h
      rcases List.mem_cons.mp h with h1 | h2
      · exact Or.inr (h1 ▸ List.mem_cons_self _ _)
      · rcases ih h2 with h3 | h4
        · exact Or.inl h3
        · exact Or.inr (List.mem_cons_of_mem _ h4)

/-- A successful assoc-list lookup exhibits a stored pair. -/
theorem pmLookup_mem {α : Type} {m : List (String × α)} {k : String} {v : α}
    (h : pmLookup m k = some v) : (k, v) ∈ m := by
  unfold pmLookup at h
  rcases Option.map_eq_some'.mp h with ⟨q, hq, hsnd⟩
  have hk : q.1 = k := by
    have := List.find?_some hq
    simpa using this
  have hm : q ∈ m := List.mem_of_find?_eq_some hq
  have hqe : q = (k, v) := by
    cases q
    simp_all
  exact hqe ▸ hm

/-- Generalized form of the row-loop lookup: later rows override both
earlier rows and the initial map. -/
theorem pmLookup_rowFold (rows : List Row) (m : List (String × PricingRecord)) (k : String) :
    pmLookup (rows.foldl (fun m r => objInsert m (rowKey r) (mkRecord r)) m) k
      = ((rows.reverse.find? fun r => rowKey r == k).map mkRecord).or (pmLookup m k) := by
  induction rows generalizing m with
  | nil => simp
  | cons r rs ih =>
    rw [List.foldl_cons, ih, List.reverse_cons, List.find?_append]
    cases hfind : rs.reverse.find? (fun r => rowKey r == k) with
    | some r' => simp [hfind]
    | none =>
      simp only [hfind, Option.none_or]
      rw [pmLookup_objInsert]
      by_cases hk : rowKey r = k
      · have hb : (rowKey r == k) = true := beq_iff_eq.mpr hk
        simp [List.find?, hb, hk]
      · have hb : (rowKey r == k) = false := beq_eq_false_iff_ne.mpr hk
        simp [List.find?, hb, hk]

/-- The fold underlying `buildPricing` grows by at most one entry per
row. -/
theorem rowFold_length_le (rows : List Row) (m : List (String × PricingRecord)) :
    (rows.foldl (fun m r => objInsert m (rowKey r) (mkRecord r)) m).length
      ≤ m.length + rows.length := by
  induction rows generalizing m with
  | nil => simp
  | cons r rs ih =>
    calc (List.foldl _ (objInsert m (rowKey r) (mkRecord r)) rs).length
        ≤ (objInsert m (rowKey r) (mkRecord r)).length + rs.length := ih _
      _ ≤ m.length + 1 + rs.length := by
          have := objInsert_length_le m (rowKey r) (mkRecord r)
          omega
      _ = m.length + (r :: rs).length := by simp; omega

/-! ## Claim theorems -/

/-- Claim C2 (status: code bug at the fetch stage).  For the pricing row
with `subTypeName = "Reverse Holofoil"`, the printing stored in the
record and interpolated into the composite key is the raw lower-cased
text `"reverse holofoil"`, which is NOT one of `normal`/`holo`/`reverse`
— the fetch stage never applies the three-way classification.  The
repository's own merge-stage classifier `normalizePrintingLike` maps the
same text to `"reverse"`, exhibiting the intended precedence rule the
fetch stage fails to implement. -/
theorem fetch_printing_unnormalized_bug :
    (mkRecord rowRevHolo).printing = "reverse holofoil"
    ∧ ¬((mkRecord rowRevHolo).printing ∈ (["normal", "holo", "reverse"] : List String))
    ∧ rowKey rowRevHolo = "base5|36|reverse holofoil|EN"
    ∧ normalizePrintingLike "Reverse Holofoil" = "reverse"
    ∧ normalizePrintingLike "Holofoil" = "holo"
    ∧ normalizePrintingLike "Rare" = "normal" := by
  refine ⟨by decide, by decide, by decide, by decide, by decide, by decide⟩

/-- Claim C3, counterexample.  For a row whose collector number is
`"25a"`, `toKey` in the fetch stage interpolates the number as-is
(trimmed, lower-case `a` preserved), so the produced key is
`"xy1|25a|normal|EN"` and not the `"xy1|25A|normal|EN"` that the claimed
`uppercase(extNumber)` formula demands. -/
theorem fetch_key_uppercase_cex :
    rowKey rowXy = "xy1|25a|normal|EN"
    ∧ ("xy1|25a|normal|EN" : String) ≠ "xy1|25A|normal|EN" := by
  refine ⟨by decide, by decide⟩

/-- Claim C3, amended.  For every pricing row the composite key is
`lowercase(groupId) + "|" + trim(extNumber) + "|" + lowercase(printing
or 'normal') + "|" + lang`, where `lang` has already been upper-cased at
the row level and defaults to `"EN"` when neither language field is
present; the merge-side key builder `buildPricingKey` is the variant
that additionally upper-cases `extNumber` and `lang`. -/
theorem fetch_key_shape (r : Row) :
    rowKey r = strLower (rowGroupId r) ++ "|" ++ strTrim (rowKeyNumber r) ++ "|"
        ++ strLower (if rowPrintingRaw r = "" then "normal" else rowPrintingRaw r) ++ "|"
        ++ (if rowLang r = "" then "EN" else rowLang r)
    ∧ (r.lang = none → r.language = none → (if rowLang r = "" then "EN" else rowLang r) = "EN")
    ∧ (∀ g n p l, buildPricingKey g n p l = strLower g ++ "|" ++ strUpper n ++ "|"
        ++ strLower (if p = "" then "normal" else p) ++ "|"
        ++ strUpper (if l = "" then "EN" else l)) := by
  refine ⟨?_, ?_, fun g n p l => rfl⟩
  · unfold rowKey toKey
    by_cases h : rowPrintingRaw r = ""
    · simp [h]
    · simp [h]
  · intro hl hll
    have : rowLang r = "EN" := by
      unfold rowLang
      rw [hl, hll]
      rfl
    rw [this]
    rfl

/-- Witness for the amended C3 theorem at a concrete row. -/
theorem fetch_key_shape_witness :
    (if rowLang emptyRow = "" then "EN" else rowLang emptyRow) = "EN" :=
  (fetch_key_shape emptyRow).2.1 rfl rfl

/-- Claim C5, counterexample.  For a row whose `market`/`avg`/`mean`
fields are all absent but whose `mid` is `"5.5"`, the parsed `market` is
`5.5` — the fallback for a missing `market` is the parsed `mid`, not the
claimed default of `0`. -/
theorem fetch_market_default_cex :
    rowMid55.market = none
    ∧ rowMid55.avg = none
    ∧ rowMid55.mean = none
    ∧ rowMarket rowMid55 = 11 / 2
    ∧ (11 / 2 : ℚ) ≠ 0 := by
  refine ⟨rfl, rfl, rfl, rfl, by norm_num⟩

/-- Claim C5, amended.  Price parsing is total and never drops a row:
`low`, `high`, `directLow` and `mid` parse to `0` when their source
fields are all missing, and to `0` when the value present is
unparseable; `market`, however, falls back to the already-parsed `mid`
(so it is `0` only when `mid` is also `0`); and every processed row
lands in the mapping under its key. -/
theorem fetch_price_parse_total (r : Row) (rows : List Row) :
    (r.low = none → r.lowPrice = none → r.lowest_price = none → rowLow r = 0)
    ∧ (r.high = none → r.highPrice = none → r.highest_price = none → rowHigh r = 0)
    ∧ (r.directLow = none → r.direct_low = none → rowDirectLow r = 0)
    ∧ (r.mid = none → r.market = none → r.median = none → rowMid r = 0)
    ∧ (r.market = none → r.avg = none → r.mean = none → rowMarket r = rowMid r)
    ∧ (∀ s, jsParseFloat s = none → r.low = some (JsVal.vStr s) → rowLow r = 0)
    ∧ (r ∈ rows → (pmLookup (buildPricing rows) (rowKey r)).isSome = true) := by
  refine ⟨?_, ?_, ?_, ?_, ?_, ?_, ?_⟩
  · intro h1 h2 h3
    unfold rowLow
    rw [h1, h2, h3]
    rfl
  · intro h1 h2 h3
    unfold rowHigh
    rw [h1, h2, h3]
    rfl
  · intro h1 h2
    unfold rowDirectLow
    rw [h1, h2]
    rfl
  · intro h1 h2 h3
    unfold rowMid
    rw [h1, h2, h3]
    rfl
  · intro h1 h2 h3
    unfold rowMarket
    rw [h1, h2, h3]
    rfl
  · intro s hs hl
    unfold rowLow
    rw [hl]
    simp [jsQQ, parseFloatSafe, hs]
  · intro hmem
    unfold buildPricing
    rw [pmLookup_rowFold]
    have hrev : r ∈ rows.reverse := List.mem_reverse.mpr hmem
    have : (rows.reverse.find? fun x => rowKey x == rowKey r).isSome = true := by
      rw [List.find?_isSome]
      exact ⟨r, hrev, beq_iff_eq.mpr rfl⟩
    rcases Option.isSome_iff_exists.mp this with ⟨x, hx⟩
    simp [hx]

/-- Witness for the amended C5 theorem at a concrete row. -/
theorem fetch_price_parse_total_witness :
    rowLow emptyRow = 0
    ∧ rowMarket rowMid55 = rowMid rowMid55
    ∧ (pmLookup (buildPricing [rowMid55]) (rowKey rowMid55)).isSome = true := by
  refine ⟨(fetch_price_parse_total emptyRow []).1 rfl rfl rfl, ?_, ?_⟩
  · exact (fetch_price_parse_total rowMid55 []).2.2.2.2.1 rfl rfl rfl
  · exact (fetch_price_parse_total rowMid55 [rowMid55]).2.2.2.2.2.2
      (List.mem_singleton_self rowMid55)

/-- Claim C9.  The health-check step exits with `2` when the pricing
input file is missing, `1` when the entry count is below the configured
threshold, and `0` otherwise. -/
theorem health_check_exit_codes (fileExists : Bool) (entries threshold : ℕ) :
    (fileExists = false → healthCheckExit fileExists entries threshold = 2)
    ∧ (fileExists = true → entries < threshold →
        healthCheckExit fileExists entries threshold = 1)
    ∧ (fileExists = true → threshold ≤ entries →
        healthCheckExit fileExists entries threshold = 0) := by
  refine ⟨?_, ?_, ?_⟩
  · intro h
    simp [healthCheckExit, h]
  · intro h hlt
    simp [healthCheckExit, h, hlt]
  · intro h hge
    simp [healthCheckExit, h, Nat.not_lt.mpr hge]

/-- Witness for the C9 theorem at concrete inputs. -/
theorem health_check_exit_codes_witness :
    healthCheckExit false 0 100 = 2
    ∧ healthCheckExit true 5 100 = 1
    ∧ healthCheckExit true 200 100 = 0 :=
  ⟨(health_check_exit_codes false 0 100).1 rfl,
   (health_check_exit_codes true 5 100).2.1 rfl (by norm_num),
   (health_check_exit_codes true 200 100).2.2 rfl (by norm_num)⟩

/-- Claim C10.  When several rows produce the same composite key, the
mapping's value for that key is the record of the last such row in input
order; consequently the unique-key count `pricingEntries` never exceeds
the number of rows processed, and is strictly smaller as soon as a key
collides (witnessed by two identical rows). -/
theorem pricing_last_row_wins :
    (∀ (rows : List Row) (k : String),
      pmLookup (buildPricing rows) k
        = ((rows.reverse.find? fun r => rowKey r == k).map mkRecord))
    ∧ (∀ rows : List Row, pricingEntries rows ≤ rows.length)
    ∧ pricingEntries [emptyRow, emptyRow] < ([emptyRow, emptyRow] : List Row).length := by
  refine ⟨?_, ?_, by decide⟩
  · intro rows k
    unfold buildPricing
    rw [pmLookup_rowFold]
    simp [pmLookup, List.find?]
  · intro rows
    unfold pricingEntries buildPricing
    have := rowFold_length_le rows []
    simpa using this

/-! ## C4 — set resolution -/

/-- A registry set whose stored id has upper-case letters (exercises the
case-insensitive index). -/
def setBase5 : SetObj :=
  { id := some "BASE5"
    name := some "Base Set 5" }

/-- A card with no embedded set object. -/
def cardNoSet : Card :=
  { id := "base5-36"
    name := "Pikachu" }

/-- Claim C4.  A card's set is the embedded object verbatim when that
object has at least one key; otherwise the code inferred from the id
(leading alphanumeric run before the first hyphen — `"base5-36"` gives
`"base5"`) or from the image URL is looked up in the registry index
(whose keys are lower-cased ids, making the lookup case-insensitive);
when the lookup fails the set is the empty object. -/
theorem merge_set_resolution (setIdx : List (String × SetObj)) (card : Card) :
    (hasKeys card.set = true → resolveFinalSet setIdx card = card.set)
    ∧ (hasKeys card.set = false → ∀ code s,
        toSetCodeFromIdOrUrl card.id (jsOrOpt card.imageSmall card.imageLarge) = some code →
        pmLookup setIdx code = some s → resolveFinalSet setIdx card = s)
    ∧ (hasKeys card.set = false →
        (∀ code, toSetCodeFromIdOrUrl card.id (jsOrOpt card.imageSmall card.imageLarge) = some code →
          pmLookup setIdx code = none) →
        resolveFinalSet setIdx card = emptySet)
    ∧ toSetCodeFromIdOrUrl "base5-36" none = some "base5"
    ∧ (∀ (s : SetObj) (i : String), s.id = some i → i ≠ "" →
        pmLookup (buildSetIndex [s]) (strLower i) = some s) := by
  refine ⟨?_, ?_, ?_, by decide, ?_⟩
  · intro h
    unfold resolveFinalSet
    rw [if_pos h]
  · intro h code s hc hl
    unfold resolveFinalSet
    rw [if_neg (by simp [h])]
    simp [hc, hl]
  · intro h hall
    unfold resolveFinalSet
    rw [if_neg (by simp [h])]
    cases hc : toSetCodeFromIdOrUrl card.id (jsOrOpt card.imageSmall card.imageLarge) with
    | none => rfl
    | some code => simp [hall code hc]
  · intro s i hid hne
    simp [buildSetIndex, optTruthy, hid, hne, objInsert, pmLookup, List.find?]

/-- Witness for the C4 theorem: with an empty embedded set, the id
`"base5-36"` resolves through the registry entry stored under `"BASE5"`. -/
theorem merge_set_resolution_witness :
    resolveFinalSet (buildSetIndex [setBase5]) cardNoSet = setBase5
    ∧ toSetCodeFromIdOrUrl "base5-36" none = some "base5" :=
  ⟨(merge_set_resolution (buildSetIndex [setBase5]) cardNoSet).2.1 rfl "base5" setBase5
      (by decide) (by decide),
   (merge_set_resolution (buildSetIndex [setBase5]) cardNoSet).2.2.2.1⟩

/-! ## C1 — candidate order and variant lists -/

/-- Modelled from the claim text, NOT from the source: the three
set-code variants the claim asserts are the only ones (exact lowercase,
non-alphanumerics stripped, trailing digits stripped). -/
def claimSetVariants (s : String) : List String :=
  [strLower s, keepLowerAlnum (strLower s), dropTrailingDigits (strLower s)]

/-- Modelled from the claim text, NOT from the source: the four number
variants the claim asserts, the last being a digits-only extraction. -/
def claimNumberVariants (n : String) : List String :=
  [strUpper n, dropLeadingZeros (strUpper n), padStart3 (strUpper n),
   String.mk ((strUpper n).data.filter Char.isDigit)]

/-- Modelled from the claim text: the full candidate-key list the claim
describes for a card with the given resolved set code. -/
def claimCandidateKeys (card : Card) (setCode : String) : List String :=
  candidateKeys (claimSetVariants setCode) (claimNumberVariants card.number)
    (printingVariations card)

/-- A pricing row whose group id is the abbreviation `bs5`. -/
def rowBs : Row :=
  { emptyRow with
    set_code := some (JsVal.vStr "bs5")
    number := some (JsVal.vStr "1") }

/-- The pricing mapping built from that single row (key `bs5|1|normal|EN`). -/
def pmBs : List (String × PricingRecord) := buildPricing [rowBs]

/-- A card in set `base5`, number 1. -/
def cardBs : Card :=
  { id := "base5-1"
    name := "x"
    number := "1"
    set := { id := some "base5" } }

/-- Claim C1, counterexample.  Against a mapping whose only key is
`bs5|1|normal|EN`, none of the claim's (set × number × printing)
candidate keys for the card is present — so under the claim the card's
pricing must be null — yet the merge stage finds a match, because the
real `normalizeSetId` also tries the `base`→`bs` abbreviation variant
that the claim's exact three-variant list excludes. -/
theorem merge_variants_cex :
    ((claimCandidateKeys cardBs "base5").all fun k => (pmLookup pmBs k).isNone) = true
    ∧ ((enrichCard [] pmBs cardBs).pricing).isSome = true := by
  refine ⟨by decide, by decide⟩

/-- The nested loops probe exactly the flattened candidate-key product,
first hit wins. -/
theorem findFirstMatch_eq_candidates (pm : List (String × PricingRecord))
    (svs nvs pvs : List String) :
    findFirstMatch pm svs nvs pvs
      = (candidateKeys svs nvs pvs).findSome? fun k => (pmLookup pm k).map fun r => (k, r) := by
  unfold findFirstMatch candidateKeys
  simp only [findSome?_flatMap, List.findSome?_map, Function.comp_def]

/-- When no candidate key is present the match is `none`. -/
theorem findFirstMatch_none (pm : List (String × PricingRecord))
    (svs nvs pvs : List String)
    (h : ∀ k ∈ candidateKeys svs nvs pvs, pmLookup pm k = none) :
    findFirstMatch pm svs nvs pvs = none := by
  rw [findFirstMatch_eq_candidates, List.findSome?_eq_none_iff]
  intro k hk
  rw [h k hk]
  rfl

/-- Claim C1, amended.  The merge matcher probes the full
(set-variant × number-variant × printing-variant) product as one flat
ordered key list, the first present key winning and the search stopping
there; a card whose whole candidate list misses gets `pricing = null`.
The set-code variants are the six of `normalizeSetId` (lowercase code,
non-alphanumerics stripped, first `base`→`bs`, first `bs`→`base`,
trailing digits stripped, `'1'` appended; empties dropped), and the
number variants include an alphanumeric-only extraction (letters kept),
not a digits-only one.  The printing variants are as claimed. -/
theorem merge_candidate_order :
    (∀ (pm : List (String × PricingRecord)) (svs nvs pvs : List String),
      findFirstMatch pm svs nvs pvs
        = (candidateKeys svs nvs pvs).findSome? fun k => (pmLookup pm k).map fun r => (k, r))
    ∧ (∀ (setIdx : List (String × SetObj)) (pm : List (String × PricingRecord)) (card : Card),
        (∀ k ∈ candidateKeysOfCard setIdx card, pmLookup pm k = none) →
        (enrichCard setIdx pm card).pricing = none)
    ∧ normalizeSetId (some "base5") = ["base5", "base5", "bs5", "base5", "base", "base51"]
    ∧ normalizeCardNumber "025" = ["025", "25", "025", "025"]
    ∧ normalizeCardNumber "SVP-001" = ["SVP-001", "SVP-001", "SVP-001", "SVP001"]
    ∧ (∀ card : Card, printingVariations card
        = [(if optTruthy card.printing then card.printing.getD ""
            else if optTruthy card.variant then card.variant.getD ""
            else normalizePrintingLike card.name), "normal", "holo", "reverse"]) := by
  refine ⟨findFirstMatch_eq_candidates, ?_, by decide, by decide, by decide, fun card => rfl⟩
  intro setIdx pm card h
  have hnone : findFirstMatch pm
      (normalizeSetId (setIdForMatching (resolveFinalSet setIdx card) card))
      (normalizeCardNumber card.number) (printingVariations card) = none :=
    findFirstMatch_none pm _ _ _ h
  show (findFirstMatch pm
      (normalizeSetId (setIdForMatching (resolveFinalSet setIdx card) card))
      (normalizeCardNumber card.number) (printingVariations card)).map _ = none
  rw [hnone]
  rfl

/-- Witness for the amended C1 theorem: with an empty mapping every
candidate key misses and the card's pricing is null. -/
theorem merge_candidate_order_witness :
    (enrichCard [] [] cardBs).pricing = none :=
  merge_candidate_order.2.1 [] [] cardBs fun _ _ => rfl

/-! ## C6 — coverage arithmetic -/

/-- The `Math.max(1, n)` guard changes nothing when the numerator is
forced to vanish with the denominator. -/
theorem coverage_max_one (c n : ℕ) (h : n = 0 → c = 0) :
    toFixed1 ((c : ℚ) / ((max 1 n : ℕ) : ℚ) * 100) = toFixed1 ((c : ℚ) / (n : ℚ) * 100) := by
  rcases Nat.eq_zero_or_pos n with h0 | hpos
  · subst h0
    rw [h rfl]
    norm_num
  · rw [Nat.max_eq_right hpos]

/-- Claim C6.  The pricing-coverage value written into the summary file
equals cardsWithPricing divided by totalCards, times 100, rounded to one
decimal place (the `Math.max(1, …)` guard in the code only matters for
an empty card list, where both readings give 0.0). -/
theorem merge_coverage_formula (cd : CardData) (pd : PricingData) (t : String) :
    (mergeRun cd pd t).summary.pricingCoverage
      = toFixed1 (((mergeRun cd pd t).summary.cardsWithPricing : ℚ)
          / ((mergeRun cd pd t).summary.totalCards : ℚ) * 100) := by
  have key := coverage_max_one
    ((cd.cards.map (enrichCard (buildSetIndex cd.sets) pd.pricing)).filter
      (fun c => c.pricing.isSome)).length
    (cd.cards.map (enrichCard (buildSetIndex cd.sets) pd.pricing)).length
    (by
      intro h0
      rw [List.length_eq_zero.mp h0]
      rfl)
  exact key

/-! ## C7 — output-card invariants -/

/-- Every block produced by the chunker is a subset of the input list. -/
theorem chunkSlices_subset {l cl : List OutCard} (h : cl ∈ chunkSlices l) : cl ⊆ l := by
  unfold chunkSlices at h
  rcases List.mem_map.mp h with ⟨i, _, rfl⟩
  exact ((List.take_sublist _ _).trans (List.drop_sublist _ _)).subset

/-- Every card inside a chunk file of a merge run is one of the enriched
cards. -/
theorem mergeRun_chunk_cards_mem (cd : CardData) (pd : PricingData) (t : String)
    (cf : ChunkFile) (hcf : cf ∈ (mergeRun cd pd t).chunks) :
    ∀ c ∈ cf.cards, c ∈ cd.cards.map (enrichCard (buildSetIndex cd.sets) pd.pricing) := by
  intro c hc
  simp only [mergeRun] at hcf
  rcases List.mem_map.mp hcf with ⟨i, _, rfl⟩
  simp only at hc
  rcases hget : (chunkSlices (cd.cards.map (enrichCard (buildSetIndex cd.sets) pd.pricing)))[i]? with _ | cl
  · rw [List.getD_eq_getElem?_getD, hget] at hc
    simp at hc
  · rw [List.getD_eq_getElem?_getD, hget] at hc
    exact chunkSlices_subset (List.getElem?_mem hget) hc

/-- A successful run of the nested matcher loops returns a key that is
present in the mapping together with its record. -/
theorem findFirstMatch_lookup {pm : List (String × PricingRecord)}
    {svs nvs pvs : List String} {k : String} {r : PricingRecord}
    (h : findFirstMatch pm svs nvs pvs = some (k, r)) : pmLookup pm k = some r := by
  unfold findFirstMatch at h
  rcases findSome?_mem_of_eq_some h with ⟨g, _, hg⟩
  rcases findSome?_mem_of_eq_some hg with ⟨n, _, hn⟩
  rcases findSome?_mem_of_eq_some hn with ⟨p, _, hp⟩
  simp only at hp
  rcases Option.map_eq_some'.mp hp with ⟨r', hr', hkr⟩
  have hk : buildPricingKey g n p "EN" = k := congrArg Prod.fst hkr
  have hr : r' = r := congrArg Prod.snd hkr
  rw [← hk, ← hr]
  exact hr'

/-- Truthiness of an optional string implies presence. -/
theorem optTruthy_isSome {o : Option String} (h : optTruthy o = true) : o.isSome = true := by
  cases o with
  | none => simp [optTruthy] at h
  | some s => rfl

/-- Every value stored by `buildSetIndex` (over any accumulator whose
values already satisfy it) has a present id. -/
theorem buildSetIndexAux_id_isSome (sets : List SetObj) (m : List (String × SetObj))
    (hm : ∀ p ∈ m, ((p : String × SetObj).2).id.isSome = true) :
    ∀ p ∈ sets.foldl
      (fun m s => if optTruthy s.id then objInsert m (strLower (s.id.getD "")) s else m) m,
      ((p : String × SetObj).2).id.isSome = true := by
  induction sets generalizing m with
  | nil => exact hm
  | cons s rest ih =>
    intro p hp
    refine ih _ ?_ p hp
    intro q hq
    simp only at hq
    by_cases ht : optTruthy s.id
    · rw [if_pos ht] at hq
      rcases mem_objInsert hq with h1 | h2
      · rw [h1]
        exact optTruthy_isSome ht
      · exact hm q h2
    · rw [if_neg ht] at hq
      exact hm q hq

/-- Any set found in the registry index has a present id. -/
theorem buildSetIndex_lookup_id_isSome {sets : List SetObj} {k : String} {s : SetObj}
    (h : pmLookup (buildSetIndex sets) k = some s) : s.id.isSome = true :=
  buildSetIndexAux_id_isSome sets [] (by intro p hp; cases hp) (k, s) (pmLookup_mem h)

/-- An enriched card's pricing is the attached match result. -/
theorem enrichCard_pricing_eq (setIdx : List (String × SetObj))
    (pm : List (String × PricingRecord)) (card : Card) :
    (enrichCard setIdx pm card).pricing
      = (findFirstMatch pm
          (normalizeSetId (setIdForMatching (resolveFinalSet setIdx card) card))
          (normalizeCardNumber card.number) (printingVariations card)).map fun kr =>
        { record := { kr.2 with groupName :=
            if kr.2.groupName ≠ "" then kr.2.groupName
            else ((resolveFinalSet setIdx card).name).getD "" }
          matchedKey := kr.1 } := rfl

/-- An enriched card's output set id is the resolved set's id. -/
theorem enrichCard_set_id (setIdx : List (String × SetObj))
    (pm : List (String × PricingRecord)) (card : Card) :
    (enrichCard setIdx pm card).set.id = (resolveFinalSet setIdx card).id := rfl

/-- A card whose embedded set resolves (verbatim, with an id). -/
def cardV : Card :=
  { id := "v1-1"
    name := "V"
    number := "1"
    set := { id := some "v1", name := some "Vset" } }

/-- A one-card input for the C7 witness. -/
def cdV : CardData := { cards := [cardV] }

/-- An empty pricing input for the C7 witness. -/
def pdV : PricingData := {}

/-- The enriched form of `cardV` under those inputs. -/
def outV : OutCard := enrichCard (buildSetIndex cdV.sets) pdV.pricing cardV

/-- The single chunk file the witness run produces. -/
def cfV : ChunkFile :=
  { cards := [outV]
    chunk := 1
    totalChunks := 1
    lastUpdated := "T" }

/-- Claim C7.  Every card written to an output chunk carries either a
null pricing or the complete record of a present mapping key (spread
verbatim, `groupName` defaulted from the resolved set, plus the matched
key) — never a partially-filled object; and the output `set.id` is
present whenever the set is resolvable, i.e. the embedded set has keys
and an id, or the embedded set is empty and the inferred code is found
in the registry index. -/
theorem merge_output_card_invariants (cd : CardData) (pd : PricingData) (t : String) :
    (∀ cf ∈ (mergeRun cd pd t).chunks, ∀ c ∈ cf.cards,
      c.pricing = none ∨ ∃ k r, pmLookup pd.pricing k = some r ∧
        ∃ g, (r.groupName ≠ "" → g = r.groupName) ∧
          c.pricing = some { record := { r with groupName := g }, matchedKey := k })
    ∧ (∀ cf ∈ (mergeRun cd pd t).chunks, ∀ c ∈ cf.cards,
        ∃ card ∈ cd.cards, c = enrichCard (buildSetIndex cd.sets) pd.pricing card)
    ∧ (∀ card : Card,
        (hasKeys card.set = true → card.set.id.isSome = true →
          ((enrichCard (buildSetIndex cd.sets) pd.pricing card).set.id).isSome = true)
        ∧ (∀ code s, hasKeys card.set = false →
            toSetCodeFromIdOrUrl card.id (jsOrOpt card.imageSmall card.imageLarge) = some code →
            pmLookup (buildSetIndex cd.sets) code = some s →
            ((enrichCard (buildSetIndex cd.sets) pd.pricing card).set.id).isSome = true)) := by
  have hmem : ∀ cf ∈ (mergeRun cd pd t).chunks, ∀ c ∈ cf.cards,
      ∃ card ∈ cd.cards, c = enrichCard (buildSetIndex cd.sets) pd.pricing card := by
    intro cf hcf c hc
    rcases List.mem_map.mp (mergeRun_chunk_cards_mem cd pd t cf hcf c hc) with ⟨card, hcard, he⟩
    exact ⟨card, hcard, he.symm⟩
  refine ⟨?_, hmem, ?_⟩
  · intro cf hcf c hc
    rcases hmem cf hcf c hc with ⟨card, _, rfl⟩
    rw [enrichCard_pricing_eq]
    cases hf : findFirstMatch pd.pricing
        (normalizeSetId (setIdForMatching (resolveFinalSet (buildSetIndex cd.sets) card) card))
        (normalizeCardNumber card.number) (printingVariations card) with
    | none => exact Or.inl rfl
    | some kr =>
      rcases kr with ⟨k, r⟩
      refine Or.inr ⟨k, r, findFirstMatch_lookup hf, ?_⟩
      refine ⟨if r.groupName ≠ "" then r.groupName
        else ((resolveFinalSet (buildSetIndex cd.sets) card).name).getD "", ?_, rfl⟩
      intro hg
      rw [if_pos hg]
  · intro card
    constructor
    · intro hk hid
      rw [enrichCard_set_id]
      unfold resolveFinalSet
      rw [if_pos hk]
      exact hid
    · intro code s hk hc hl
      rw [enrichCard_set_id]
      unfold resolveFinalSet
      rw [if_neg (by simp [hk])]
      simp only [hc, hl]
      exact buildSetIndex_lookup_id_isSome hl

/-- Witness for the C7 theorem on a concrete one-card run: the embedded
set is used verbatim (id present in the output), the card is one of the
run's enriched cards, and with an empty mapping the attached pricing is
null (via the theorem's disjunction). -/
theorem merge_output_card_invariants_witness :
    ((enrichCard (buildSetIndex cdV.sets) pdV.pricing cardV).set.id).isSome = true
    ∧ (∃ card ∈ cdV.cards, outV = enrichCard (buildSetIndex cdV.sets) pdV.pricing card)
    ∧ (outV.pricing = none ∨ ∃ k r, pmLookup pdV.pricing k = some r ∧
        ∃ g, (r.groupName ≠ "" → g = r.groupName) ∧
          outV.pricing = some { record := { r with groupName := g }, matchedKey := k }) :=
  ⟨((merge_output_card_invariants cdV pdV "T").2.2 cardV).1 rfl rfl,
   (merge_output_card_invariants cdV pdV "T").2.1 cfV
     (show cfV ∈ (mergeRun cdV pdV "T").chunks from List.mem_singleton_self cfV)
     outV (List.mem_singleton_self outV),
   (merge_output_card_invariants cdV pdV "T").1 cfV
     (show cfV ∈ (mergeRun cdV pdV "T").chunks from List.mem_singleton_self cfV)
     outV (List.mem_singleton_self outV)⟩

/-! ## C8 — the wall clock reaches only the lastUpdated fields -/

/-- Claim C8.  The merge stage is a pure function of its two input
files: two runs on identical inputs produce identical index, chunk and
summary artifacts except for the `lastUpdated` timestamp fields (the
run timestamp `t` is the only run-dependent input, and stripping it
yields equal outputs for any two timestamps). -/
theorem merge_timestamp_only (cd : CardData) (pd : PricingData) (t₁ t₂ : String) :
    stripTimestamps (mergeRun cd pd t₁) = stripTimestamps (mergeRun cd pd t₂) := by
  simp only [stripTimestamps, mergeRun, List.map_map]
  rfl

end PokemonTcgSync
